import Mathlib

/-!
Shape-level embedding of `dunet.py` (dynamic U-Net decoder construction).

Tensors are modelled by their shapes `(n, c, h, w)`; every layer of the
network becomes a function from shapes to `Option` shapes, where `none`
models a Python runtime error (IndexError, AttributeError, or a tensor
shape mismatch raised by the underlying runtime).  Elementwise layers
(ReLU, sigmoid) are shape-preserving and are embedded as the identity.
-/

/-- Shape of a 4-d tensor: batch, channels, height, width
(`size() = (n, c, h, w)` in the source). -/
structure TShape where
  n : Nat
  c : Nat
  h : Nat
  w : Nat
deriving DecidableEq, Repr

/-- Indices `i` with `szs[i] ≠ szs[i+1]`, in ascending order.  This is
`np.where(np.array(szs[:-1]) != np.array(szs[1:]))[0]` from the source:
`szs.zip szs.tail` pairs each element with its successor. -/
def transitionIdxs (szs : List Nat) : List Nat :=
  ((szs.zip szs.tail).enum.filter (fun p => p.2.1 != p.2.2)).map (fun p => p.1)

/-- The `last = True` branch of `get_sfs_idxs`, acting on the extracted
trailing sizes.  Python evaluates `feature_szs[0] != feature_szs[1]`
unconditionally, so a list with fewer than two elements raises an
IndexError, modelled by `none`. -/
def sfs_idxs_of_szs (feature_szs : List Nat) : Option (List Nat) :=
  match feature_szs.get? 0, feature_szs.get? 1 with
  | some s0, some s1 =>
      some (if s0 ≠ s1 then 0 :: transitionIdxs feature_szs else transitionIdxs feature_szs)
  | _, _ => none

/-- `get_sfs_idxs(sfs, last)` from the source.  The input is the list of
recorded activation shapes (`sfs_feats.features.size()` for each saved
feature); only the trailing spatial dimension `size()[-1] = w` is read
in the `last` branch. -/
def get_sfs_idxs (sfs : List TShape) (last : Bool) : Option (List Nat) :=
  if last then
    sfs_idxs_of_szs (sfs.map (fun t => t.w))
  else
    some (List.range sfs.length)

/-- Shape semantics of `nn.Conv2d(in_c, out_c, k, s, p)`: requires the
input channel count to match and the padded input to cover the kernel
(PyTorch raises when the output size would be < 1). -/
def conv2d_shape (in_c out_c k s p : Nat) (t : TShape) : Option TShape :=
  if t.c = in_c ∧ k ≤ t.h + 2 * p ∧ k ≤ t.w + 2 * p then
    some ⟨t.n, out_c, (t.h + 2 * p - k) / s + 1, (t.w + 2 * p - k) / s + 1⟩
  else
    none

/-- Shape semantics of `nn.ConvTranspose2d(in_c, out_c, k, s)` (no
padding): output spatial size is `(x - 1) * s + k`; requires a
non-empty input. -/
def convTranspose2d_shape (in_c out_c k s : Nat) (t : TShape) : Option TShape :=
  if t.c = in_c ∧ 1 ≤ t.h ∧ 1 ≤ t.w then
    some ⟨t.n, out_c, (t.h - 1) * s + k, (t.w - 1) * s + k⟩
  else
    none

/-- Shape semantics of `nn.BatchNorm2d(c)`: shape-preserving, but the
channel count must match. -/
def batchNorm2d_shape (c : Nat) (t : TShape) : Option TShape :=
  if t.c = c then some t else none

/-- Shape semantics of `torch.cat([a, b], dim=1)`: batch and spatial
sizes must agree; channel counts add. -/
def cat_channels (a b : TShape) : Option TShape :=
  if a.n = b.n ∧ a.h = b.h ∧ a.w = b.w then
    some ⟨a.n, a.c + b.c, a.h, a.w⟩
  else
    none

/-- A layer descriptor, as built by the decoder-construction code
(ReLU is shape-preserving). -/
inductive Layer where
  | conv2d (in_c out_c k s p : Nat)
  | relu
  | batchNorm2d (c : Nat)
deriving DecidableEq, Repr

/-- `conv_bn_relu(in_c, out_c, kernel_size, stride, padding)` from the
source: the literal list `[Conv2d, ReLU, BatchNorm2d]`. -/
def conv_bn_relu (in_c out_c k s p : Nat) : List Layer :=
  [Layer.conv2d in_c out_c k s p, Layer.relu, Layer.batchNorm2d out_c]

/-- Shape action of a single layer. -/
def Layer.apply : Layer → TShape → Option TShape
  | Layer.conv2d ic oc k s p, t => conv2d_shape ic oc k s p t
  | Layer.relu, t => some t
  | Layer.batchNorm2d c, t => batchNorm2d_shape c t

/-- Shape action of an `nn.Sequential` of layers. -/
def applyLayers (ls : List Layer) (t : TShape) : Option TShape :=
  ls.foldlM (fun s l => l.apply s) t

/-- A `UnetBlock(up_in_c, x_in_c)`: its two constructor arguments
determine every internal layer width. -/
structure UnetBlock where
  up_in_c : Nat
  x_in_c : Nat
deriving DecidableEq, Repr

/-- `conv2.out_channels` of a `UnetBlock`, read back by the
decoder-construction code. -/
def UnetBlock.conv2_out_channels (b : UnetBlock) : Nat :=
  (b.x_in_c + b.up_in_c / 2) / 2

/-- `UnetBlock.forward(up_in, x_in)`:
`upconv = ConvTranspose2d(up_in_c, up_in_c // 2, 2, 2)`, then
`cat([up_out, x_in], dim=1)`, then two `Conv2d(..., 3, 1, 1)` layers
(each followed by a shape-preserving ReLU) and a `BatchNorm2d`. -/
def UnetBlock.forward (b : UnetBlock) (up_in x_in : TShape) : Option TShape :=
  match convTranspose2d_shape b.up_in_c (b.up_in_c / 2) 2 2 up_in with
  | none => none
  | some up_out =>
    match cat_channels up_out x_in with
    | none => none
    | some cat_x =>
      match conv2d_shape (b.x_in_c + b.up_in_c / 2) ((b.x_in_c + b.up_in_c / 2) / 2) 3 1 1 cat_x with
      | none => none
      | some x1 =>
        match conv2d_shape ((b.x_in_c + b.up_in_c / 2) / 2) ((b.x_in_c + b.up_in_c / 2) / 2) 3 1 1 x1 with
        | none => none
        | some x2 => batchNorm2d_shape ((b.x_in_c + b.up_in_c / 2) / 2) x2

/-- The fields set by the first `if not hasattr(self, 'middle_conv')`
block of `DynamicUnet.forward`: `sfs_szs`, `sfs_idxs` and the
bottleneck `middle_conv`. -/
structure MiddlePart where
  sfs_szs : List TShape
  sfs_idxs : List Nat
  middle_conv : List Layer
deriving DecidableEq, Repr

/-- The fields set by the second `if not hasattr(self, 'upmodel')`
block of `DynamicUnet.forward`: the decoder blocks, the optional extra
block (stored as its channel count: the block is
`ConvTranspose2d(c, c, 2, 2)`), and the input width of the final 1x1
convolution. -/
structure UpPart where
  upmodel : List UnetBlock
  extra_block : Option Nat
  final_in_c : Nat
deriving DecidableEq, Repr

/-- The mutable state of a `DynamicUnet` instance: constructor
arguments plus the two lazily assigned groups of attributes
(`none` models the attribute being absent). -/
structure DynamicUnet where
  last : Bool
  n_classes : Nat
  middle_part : Option MiddlePart
  up_part : Option UpPart
deriving DecidableEq, Repr

/-- Layer list of the bottleneck built on the first call:
`conv_bn_relu(c, c*2, 3, 1, 1) ++ conv_bn_relu(c*2, c, 3, 1, 1)`. -/
def middle_conv_layers (c : Nat) : List Layer :=
  conv_bn_relu c (c * 2) 3 1 1 ++ conv_bn_relu (c * 2) c 3 1 1

/-- First lazy-construction block of `DynamicUnet.forward` (lines
guarded by `hasattr(self, 'middle_conv')`): record the activation
shapes, run `get_sfs_idxs`, and build the bottleneck on the deepest
activation's channel count `sfs_szs[-1][1]`. -/
def initMiddle (last : Bool) (feats : List TShape) : Option MiddlePart :=
  match get_sfs_idxs feats last with
  | none => none
  | some idxs =>
    match feats.getLast? with
    | none => none
    | some lf => some ⟨feats, idxs, middle_conv_layers lf.c⟩

/-- The decoder-block construction loop: walk the selected indices (in
the order the loop sees them, i.e. already reversed), size each
`UnetBlock` from the running shape's channels and `sfs_szs[idx][1]`,
apply it to the running shape, and collect the blocks. -/
def buildBlocks (sfs_szs : List TShape) (idxs : List Nat) (x0 : TShape) :
    Option (List UnetBlock × TShape) :=
  idxs.foldlM
    (fun acc idx =>
      match sfs_szs.get? idx with
      | none => none
      | some sz =>
        let b : UnetBlock := ⟨acc.2.c, sz.c⟩
        match b.forward acc.2 sz with
        | none => none
        | some x' => some (acc.1 ++ [b], x'))
    ([], x0)

/-- Second lazy-construction block of `DynamicUnet.forward` (guarded by
`hasattr(self, 'upmodel')`).  `self.upmodel` is only assigned inside
the loop body, so when the loop runs zero times every later
`self.upmodel[-1]` read fails: this is modelled by `List.getLast?`
returning `none` on the empty block list.  The extra block is created
exactly when `imsize != sfs_szs[0][-2:]`. -/
def build_up_part (imsize : Nat × Nat) (sfs_szs : List TShape) (sfs_idxs : List Nat)
    (x : TShape) : Option (UpPart × TShape) :=
  match buildBlocks sfs_szs sfs_idxs.reverse x with
  | none => none
  | some (blocks, x_end) =>
    match sfs_szs.get? 0 with
    | none => none
    | some firstSz =>
      if imsize ≠ (firstSz.h, firstSz.w) then
        match blocks.getLast? with
        | none => none
        | some lb => some (⟨blocks, some lb.conv2_out_channels, lb.conv2_out_channels⟩, x_end)
      else
        match blocks.getLast? with
        | none => none
        | some lb => some (⟨blocks, none, lb.conv2_out_channels⟩, x_end)

/-- The cached-decoder run: `for block, idx in zip(self.upmodel,
self.sfs_idxs[::-1]): x = block(x, self.sfs[idx].features)`. -/
def runUpsample (feats : List TShape) (blocks : List UnetBlock) (idxs : List Nat)
    (x : TShape) : Option TShape :=
  (blocks.zip idxs).foldlM
    (fun s bi =>
      match feats.get? bi.2 with
      | none => none
      | some f => bi.1.forward s f)
    x

/-- `if hasattr(self, 'extra_block'): x = self.extra_block(x)` — the
extra block is applied exactly when it exists. -/
def applyExtra (eb : Option Nat) (t : TShape) : Option TShape :=
  match eb with
  | none => some t
  | some c => convTranspose2d_shape c c 2 2 t

/-- The evaluation tail of `DynamicUnet.forward` after construction:
run the cached decoder blocks, the optional extra block, and the final
1x1 convolution (the closing sigmoid is shape-preserving). -/
def runTail (n_classes : Nat) (feats : List TShape) (up : UpPart) (sfs_idxs : List Nat)
    (x1 : TShape) : Option TShape :=
  match runUpsample feats up.upmodel sfs_idxs.reverse x1 with
  | none => none
  | some x2 =>
    match applyExtra up.extra_block x2 with
    | none => none
    | some x3 => conv2d_shape up.final_in_c n_classes 1 1 0 x3

/-- The middle-part attribute lookup in `DynamicUnet.forward`: reuse
the cached value when present, otherwise run the first construction
block. -/
def cachedMiddle (m : DynamicUnet) (feats : List TShape) : Option MiddlePart :=
  match m.middle_part with
  | some mp => some mp
  | none => initMiddle m.last feats

/-- The up-part attribute lookup in `DynamicUnet.forward`: reuse the
cached value when present, otherwise run the second construction
block. -/
def cachedUp (m : DynamicUnet) (imsize : Nat × Nat) (mp : MiddlePart) (x1 : TShape) :
    Option UpPart :=
  match m.up_part with
  | some up => some up
  | none => (build_up_part imsize mp.sfs_szs mp.sfs_idxs x1).map (fun p => p.1)

/-- `DynamicUnet.forward(x)`.  The encoder is abstracted as a function
from the input shape to the list of recorded activation shapes (one
per child, in order); the encoder's own output is its last child's
output, so its shape is the last recorded shape (`getD x` covers the
empty `nn.Sequential`, which returns its input).  Returns the updated
instance state and the output shape (`none` = a raised error; a
failure after a construction block still keeps that block's
assignments, as in Python). -/
def DynamicUnet.forward (enc : TShape → Option (List TShape)) (m : DynamicUnet)
    (x : TShape) : DynamicUnet × Option TShape :=
  match enc x with
  | none => (m, none)
  | some feats =>
    match cachedMiddle m feats with
    | none => (m, none)
    | some mp =>
      let m1 : DynamicUnet := { m with middle_part := some mp }
      match applyLayers mp.middle_conv (feats.getLast?.getD x) with
      | none => (m1, none)
      | some x1 =>
        match cachedUp m1 (x.h, x.w) mp x1 with
        | none => (m1, none)
        | some up =>
          let m2 : DynamicUnet := { m1 with up_part := some up }
          (m2, runTail m.n_classes feats up mp.sfs_idxs x1)

/-- A freshly constructed `DynamicUnet(encoder, last=True, n_classes=3)`:
no lazily built attributes yet. -/
def duInit : DynamicUnet := ⟨true, 3, none, none⟩

/-- A constant-resolution two-stage encoder: every recorded activation
has the input's spatial size. -/
def encConst : TShape → Option (List TShape) :=
  fun x => some [⟨x.n, 4, x.h, x.w⟩, ⟨x.n, 4, x.h, x.w⟩]

/-- A three-stage encoder whose first two stages keep the input
resolution and whose last stage halves it. -/
def encHalve : TShape → Option (List TShape) :=
  fun x => some [⟨x.n, 4, x.h, x.w⟩, ⟨x.n, 6, x.h, x.w⟩, ⟨x.n, 8, x.h / 2, x.w / 2⟩]

/-- The recorded activation shapes of `encHalve` on a `(1, 3, 8, 8)`
input. -/
def feats2 : List TShape := [⟨1, 4, 8, 8⟩, ⟨1, 6, 8, 8⟩, ⟨1, 8, 4, 4⟩]

/-- A concrete recorded-shape sequence with trailing spatial sizes
`[16, 8, 8, 4]`. -/
def szsC1 : List TShape :=
  [⟨1, 64, 16, 16⟩, ⟨1, 128, 8, 8⟩, ⟨1, 128, 8, 8⟩, ⟨1, 256, 4, 4⟩]

/-- A concrete recorded-shape sequence with trailing spatial sizes
`[32, 32, 16, 16, 8]`. -/
def szsC6 : List TShape :=
  [⟨1, 16, 32, 32⟩, ⟨1, 16, 32, 32⟩, ⟨1, 32, 16, 16⟩, ⟨1, 32, 16, 16⟩, ⟨1, 64, 8, 8⟩]

/-- Claim C1 (counterexample): on trailing sizes `[16, 8, 8, 4]`,
`get_sfs_idxs` with `last = true` does not return `[0, 2]`: since the
first two sizes differ, index 0 is already a transition point found by
the `np.where` comparison, and the prepend adds a second copy, giving
`[0, 0, 2]`. -/
theorem get_sfs_idxs_16884_counterexample :
    get_sfs_idxs szsC1 true ≠ some [0, 2] ∧ get_sfs_idxs szsC1 true = some [0, 0, 2] := by
  decide

/-- Claim C1 (amended): for every shape sequence whose trailing spatial
sizes are `[16, 8, 8, 4]`, `get_sfs_idxs` with `last = true` returns
exactly `[0, 0, 2]`: the transition points `[0, 2]` with index 0
duplicated by the prepend triggered because the first two sizes
differ. -/
theorem get_sfs_idxs_16884_amended (sfs : List TShape)
    (h : sfs.map (fun t => t.w) = [16, 8, 8, 4]) :
    get_sfs_idxs sfs true = some [0, 0, 2] := by
  show sfs_idxs_of_szs (sfs.map (fun t => t.w)) = some [0, 0, 2]
  rw [h]
  decide

theorem get_sfs_idxs_16884_amended_witness :
    get_sfs_idxs szsC1 true = some [0, 0, 2] :=
  get_sfs_idxs_16884_amended szsC1 (by decide)

/-- Claim C6: for every shape sequence whose trailing spatial sizes are
`[32, 32, 16, 16, 8]`, `get_sfs_idxs` with `last = true` returns
exactly `[1, 3]`, the indices immediately before each size change,
with no prepended 0 because the first two sizes are equal. -/
theorem get_sfs_idxs_3232161688 (sfs : List TShape)
    (h : sfs.map (fun t => t.w) = [32, 32, 16, 16, 8]) :
    get_sfs_idxs sfs true = some [1, 3] := by
  show sfs_idxs_of_szs (sfs.map (fun t => t.w)) = some [1, 3]
  rw [h]
  decide

theorem get_sfs_idxs_3232161688_witness :
    get_sfs_idxs szsC6 true = some [1, 3] :=
  get_sfs_idxs_3232161688 szsC6 (by decide)

/-- Claim C8: for every recorded-activation sequence, `get_sfs_idxs`
with `last = false` returns the full ascending index list
`[0, 1, ..., N-1]`, ignoring the recorded shapes entirely. -/
theorem get_sfs_idxs_last_false (sfs : List TShape) :
    get_sfs_idxs sfs false = some (List.range sfs.length) := rfl

/-- Claim C9: `get_sfs_idxs` with `last = true` succeeds exactly on
sequences of length at least 2; in particular on every single-element
sequence the unconditional read of the second element's size fails
(an IndexError, modelled by `none`). -/
theorem get_sfs_idxs_total_iff (sfs : List TShape) :
    (get_sfs_idxs sfs true).isSome ↔ 2 ≤ sfs.length := by
  match sfs with
  | [] => simp [get_sfs_idxs, sfs_idxs_of_szs]
  | [a] => simp [get_sfs_idxs, sfs_idxs_of_szs]
  | a :: b :: t =>
    show (sfs_idxs_of_szs (a.w :: b.w :: t.map (fun s => s.w))).isSome ↔ _
    simp only [sfs_idxs_of_szs, List.get?, Option.isSome_some, List.length_cons, true_iff]
    omega

/-- The transposed convolution `ConvTranspose2d(u, u / 2, 2, 2)` sends
a non-empty `(n, u, h, w)` input to `(n, u / 2, 2h, 2w)`. -/
theorem upconv_shape_eq (n u h w : Nat) (hh : 1 ≤ h) (hw : 1 ≤ w) :
    convTranspose2d_shape u (u / 2) 2 2 ⟨n, u, h, w⟩ = some ⟨n, u / 2, 2 * h, 2 * w⟩ := by
  unfold convTranspose2d_shape
  dsimp only
  rw [if_pos ⟨rfl, hh, hw⟩]
  simp only [Option.some.injEq, TShape.mk.injEq, true_and]
  omega

/-- Full shape computation of `UnetBlock.forward` on compatible inputs:
`up_in = (n, up_in_c, h, w)` and a skip of shape
`(n, x_in_c, 2h, 2w)` give `(n, (x_in_c + up_in_c / 2) / 2, 2h, 2w)`. -/
theorem unetBlock_forward_eq (n u xc h w : Nat) (hh : 1 ≤ h) (hw : 1 ≤ w) :
    UnetBlock.forward ⟨u, xc⟩ ⟨n, u, h, w⟩ ⟨n, xc, 2 * h, 2 * w⟩
      = some ⟨n, (xc + u / 2) / 2, 2 * h, 2 * w⟩ := by
  have s2 : cat_channels ⟨n, u / 2, 2 * h, 2 * w⟩ ⟨n, xc, 2 * h, 2 * w⟩
      = some ⟨n, u / 2 + xc, 2 * h, 2 * w⟩ := by
    unfold cat_channels
    dsimp only
    rw [if_pos ⟨rfl, rfl, rfl⟩]
  have s3 : conv2d_shape (xc + u / 2) ((xc + u / 2) / 2) 3 1 1 ⟨n, u / 2 + xc, 2 * h, 2 * w⟩
      = some ⟨n, (xc + u / 2) / 2, 2 * h, 2 * w⟩ := by
    unfold conv2d_shape
    dsimp only
    rw [if_pos ⟨by omega, by omega, by omega⟩]
    simp only [Option.some.injEq, TShape.mk.injEq, true_and]
    omega
  have s4 : conv2d_shape ((xc + u / 2) / 2) ((xc + u / 2) / 2) 3 1 1
        ⟨n, (xc + u / 2) / 2, 2 * h, 2 * w⟩
      = some ⟨n, (xc + u / 2) / 2, 2 * h, 2 * w⟩ := by
    unfold conv2d_shape
    dsimp only
    rw [if_pos ⟨rfl, by omega, by omega⟩]
    simp only [Option.some.injEq, TShape.mk.injEq, true_and]
    omega
  have s5 : batchNorm2d_shape ((xc + u / 2) / 2) ⟨n, (xc + u / 2) / 2, 2 * h, 2 * w⟩
      = some ⟨n, (xc + u / 2) / 2, 2 * h, 2 * w⟩ := by
    unfold batchNorm2d_shape
    dsimp only
    rw [if_pos rfl]
  simp only [UnetBlock.forward, upconv_shape_eq n u h w hh hw, s2, s3, s4, s5]

/-- Claim C4: for every `UnetBlock(up_in_c, x_in_c)` and every pair of
input shapes with matching channel counts and compatible spatial sizes
(the skip input is at twice the upsampled input's resolution, as the
block's fixed stride-2 upsampling requires), the output has channel
count `(x_in_c + up_in_c // 2) // 2` and spatial size twice the
`up_in` input's spatial size. -/
theorem unetBlock_output_shape (n up_in_c x_in_c h w : Nat) (hh : 1 ≤ h) (hw : 1 ≤ w) :
    UnetBlock.forward ⟨up_in_c, x_in_c⟩ ⟨n, up_in_c, h, w⟩ ⟨n, x_in_c, 2 * h, 2 * w⟩
      = some ⟨n, (x_in_c + up_in_c / 2) / 2, 2 * h, 2 * w⟩ :=
  unetBlock_forward_eq n up_in_c x_in_c h w hh hw

theorem unetBlock_output_shape_witness :
    UnetBlock.forward ⟨512, 256⟩ ⟨1, 512, 4, 4⟩ ⟨1, 256, 8, 8⟩ = some ⟨1, 256, 8, 8⟩ := by
  have := unetBlock_output_shape 1 512 256 4 4 (by omega) (by omega)
  simpa using this

/-- Claim C10: for every positive `up_in_c` and `x_in_c` — including
odd `up_in_c` — the block's channel arithmetic is self-consistent
under floor division: the transposed convolution outputs exactly
`up_in_c / 2` channels, concatenation with the `x_in_c`-channel skip
yields `x_in_c + up_in_c / 2` channels, exactly what the first
convolution expects, so `forward` succeeds with no evenness
precondition. -/
theorem unetBlock_no_evenness_needed (n up_in_c x_in_c h w : Nat)
    (hu : 0 < up_in_c) (hx : 0 < x_in_c) (hh : 1 ≤ h) (hw : 1 ≤ w) :
    convTranspose2d_shape up_in_c (up_in_c / 2) 2 2 ⟨n, up_in_c, h, w⟩
        = some ⟨n, up_in_c / 2, 2 * h, 2 * w⟩ ∧
    cat_channels ⟨n, up_in_c / 2, 2 * h, 2 * w⟩ ⟨n, x_in_c, 2 * h, 2 * w⟩
        = some ⟨n, up_in_c / 2 + x_in_c, 2 * h, 2 * w⟩ ∧
    up_in_c / 2 + x_in_c = x_in_c + up_in_c / 2 ∧
    (UnetBlock.forward ⟨up_in_c, x_in_c⟩ ⟨n, up_in_c, h, w⟩ ⟨n, x_in_c, 2 * h, 2 * w⟩).isSome := by
  refine ⟨upconv_shape_eq n up_in_c h w hh hw, ?_, Nat.add_comm _ _, ?_⟩
  · unfold cat_channels
    dsimp only
    rw [if_pos ⟨rfl, rfl, rfl⟩]
  · rw [unetBlock_forward_eq n up_in_c x_in_c h w hh hw]
    rfl

theorem unetBlock_no_evenness_needed_witness :
    (UnetBlock.forward ⟨7, 5⟩ ⟨1, 7, 3, 3⟩ ⟨1, 5, 6, 6⟩).isSome := by
  have := unetBlock_no_evenness_needed 1 7 5 3 3 (by omega) (by omega) (by omega) (by omega)
  simpa using this.2.2.2

/-- Once both attribute groups are present, `forward` never changes the
instance state: every branch returns the state it was given. -/
theorem forward_state_fixed (enc : TShape → Option (List TShape)) (m : DynamicUnet)
    (x : TShape) (h1 : m.middle_part.isSome) (h2 : m.up_part.isSome) :
    (DynamicUnet.forward enc m x).1 = m := by
  obtain ⟨l, nc, mpo, upo⟩ := m
  obtain ⟨mp, rfl⟩ : ∃ mp, mpo = some mp := by
    cases mpo with
    | none => simp at h1
    | some mp => exact ⟨mp, rfl⟩
  obtain ⟨up, rfl⟩ : ∃ up, upo = some up := by
    cases upo with
    | none => simp at h2
    | some up => exact ⟨up, rfl⟩
  unfold DynamicUnet.forward
  cases enc x with
  | none => rfl
  | some feats =>
    dsimp only [cachedMiddle]
    cases applyLayers mp.middle_conv (feats.getLast?.getD x) with
    | none => rfl
    | some x1 =>
      dsimp only [cachedUp]

/-- A `forward` call that produces an output ends in the branch where
both attribute groups are present in the resulting state. -/
theorem forward_success_sets (enc : TShape → Option (List TShape)) (m : DynamicUnet)
    (x out : TShape) (h : (DynamicUnet.forward enc m x).2 = some out) :
    (DynamicUnet.forward enc m x).1.middle_part.isSome ∧
    (DynamicUnet.forward enc m x).1.up_part.isSome := by
  unfold DynamicUnet.forward at h ⊢
  cases henc : enc x with
  | none => rw [henc] at h; simp at h
  | some feats =>
    rw [henc] at h
    dsimp only at h ⊢
    cases hcm : cachedMiddle m feats with
    | none => rw [hcm] at h; simp at h
    | some mp =>
      rw [hcm] at h
      dsimp only at h ⊢
      cases happ : applyLayers mp.middle_conv (feats.getLast?.getD x) with
      | none => rw [happ] at h; simp at h
      | some x1 =>
        rw [happ] at h
        dsimp only at h ⊢
        cases hcu : cachedUp { m with middle_part := some mp } (x.h, x.w) mp x1 with
        | none => rw [hcu] at h; simp at h
        | some up => exact ⟨rfl, rfl⟩

/-- Claim C3: on a fresh instance, a successful first `forward` call
assigns both lazily built attribute groups (the topology), and every
subsequent `forward` call leaves the instance state — and hence the
cached decoder blocks — unchanged: construction side effects happen
exactly once. -/
theorem dynamicUnet_topology_once (enc : TShape → Option (List TShape))
    (m : DynamicUnet) (x y out : TShape)
    (h1 : m.middle_part = none) (h2 : m.up_part = none)
    (h3 : (DynamicUnet.forward enc m x).2 = some out) :
    ((DynamicUnet.forward enc m x).1.middle_part.isSome ∧
      (DynamicUnet.forward enc m x).1.up_part.isSome) ∧
    (DynamicUnet.forward enc (DynamicUnet.forward enc m x).1 y).1
      = (DynamicUnet.forward enc m x).1 := by
  have hset := forward_success_sets enc m x out h3
  exact ⟨hset, forward_state_fixed enc _ y hset.1 hset.2⟩

/-- With an empty index selection the construction loop runs zero
times, so the trailing `upmodel[-1]` reads have nothing to read:
`build_up_part` fails on `[]` whatever the other arguments are. -/
theorem build_up_part_nil (imsize : Nat × Nat) (szs : List TShape) (x : TShape) :
    build_up_part imsize szs [] x = none := by
  unfold build_up_part
  simp only [List.reverse_nil]
  show (match buildBlocks szs [] x with
    | none => none
    | some (blocks, x_end) =>
      match szs.get? 0 with
      | none => none
      | some firstSz =>
        if imsize ≠ (firstSz.h, firstSz.w) then
          match blocks.getLast? with
          | none => none
          | some lb => some (⟨blocks, some lb.conv2_out_channels, lb.conv2_out_channels⟩, x_end)
        else
          match blocks.getLast? with
          | none => none
          | some lb => some (⟨blocks, none, lb.conv2_out_channels⟩, x_end)) = none
  have hb : buildBlocks szs [] x = some ([], x) := rfl
  rw [hb]
  dsimp only
  cases szs.get? 0 with
  | none => rfl
  | some fs =>
    dsimp only
    split <;> rfl

/-- Claim C2 (amended): when the skip-index selection is empty, the
decoder-block loop executes zero times, so `upmodel` is never
assigned; the first `forward` call therefore fails (returns no
output) and leaves the decoder attributes unset, instead of producing
a decoder from the bottleneck, extra block and final convolution. -/
theorem forward_empty_selection_fails (enc : TShape → Option (List TShape))
    (m : DynamicUnet) (x : TShape) (feats : List TShape)
    (h1 : m.middle_part = none) (h2 : m.up_part = none)
    (henc : enc x = some feats)
    (hidx : get_sfs_idxs feats m.last = some []) :
    (DynamicUnet.forward enc m x).2 = none ∧
    (DynamicUnet.forward enc m x).1.up_part = none := by
  unfold DynamicUnet.forward
  rw [henc]
  dsimp only
  have hcm : cachedMiddle m feats = initMiddle m.last feats := by
    unfold cachedMiddle; rw [h1]
  rw [hcm]
  unfold initMiddle
  rw [hidx]
  dsimp only
  cases hlf : feats.getLast? with
  | none => exact ⟨rfl, h2⟩
  | some lf =>
    dsimp only
    cases happ : applyLayers (middle_conv_layers lf.c) ((some lf).getD x) with
    | none => exact ⟨rfl, h2⟩
    | some x1 =>
      dsimp only
      have hcu : cachedUp { m with middle_part := some ⟨feats, [], middle_conv_layers lf.c⟩ }
          (x.h, x.w) ⟨feats, [], middle_conv_layers lf.c⟩ x1 = none := by
        unfold cachedUp
        dsimp only
        rw [h2]
        dsimp only
        rw [build_up_part_nil]
        rfl
      rw [hcu]
      exact ⟨rfl, h2⟩

theorem forward_empty_selection_fails_witness :
    (DynamicUnet.forward encConst duInit ⟨1, 3, 16, 16⟩).2 = none ∧
    (DynamicUnet.forward encConst duInit ⟨1, 3, 16, 16⟩).1.up_part = none :=
  forward_empty_selection_fails encConst duInit ⟨1, 3, 16, 16⟩
    [⟨1, 4, 16, 16⟩, ⟨1, 4, 16, 16⟩] rfl rfl rfl (by decide)

/-- Claim C2 (counterexample): on a constant-resolution two-stage
encoder (empty selection, no prepend), the first call to `forward`
does not succeed: it produces no output. -/
theorem emptySkip_forward_counterexample :
    (DynamicUnet.forward encConst duInit ⟨1, 3, 16, 16⟩).2 = none := by decide

/-- On a fresh instance, the middle part left behind by `forward` is
exactly what `initMiddle` computes from the recorded activations. -/
theorem forward_fresh_middle (enc : TShape → Option (List TShape)) (m : DynamicUnet)
    (x : TShape) (h : m.middle_part = none) :
    (DynamicUnet.forward enc m x).1.middle_part
      = (enc x).bind (fun feats => initMiddle m.last feats) := by
  unfold DynamicUnet.forward
  cases henc : enc x with
  | none => exact h
  | some feats =>
    dsimp only [Option.bind]
    have hcm : cachedMiddle m feats = initMiddle m.last feats := by
      unfold cachedMiddle; rw [h]
    rw [hcm]
    cases initMiddle m.last feats with
    | none => exact h
    | some mp =>
      dsimp only
      cases applyLayers mp.middle_conv (feats.getLast?.getD x) with
      | none => rfl
      | some x1 =>
        dsimp only
        cases cachedUp { m with middle_part := some mp } (x.h, x.w) mp x1 with
        | none => rfl
        | some up => rfl

/-- Claim C7: the bottleneck built on the first `forward` call is two
(convolution, ReLU, batch-norm) stages whose channel counts go from
`c` to `2c` and then from `2c` back to `c`, where `c` is the channel
count of the deepest (last) recorded activation. -/
theorem middle_conv_structure (enc : TShape → Option (List TShape)) (m : DynamicUnet)
    (x : TShape) (feats : List TShape) (lf : TShape) (mp : MiddlePart)
    (h0 : m.middle_part = none)
    (henc : enc x = some feats)
    (hlf : feats.getLast? = some lf)
    (hmp : (DynamicUnet.forward enc m x).1.middle_part = some mp) :
    mp.middle_conv =
      [Layer.conv2d lf.c (lf.c * 2) 3 1 1, Layer.relu, Layer.batchNorm2d (lf.c * 2),
       Layer.conv2d (lf.c * 2) lf.c 3 1 1, Layer.relu, Layer.batchNorm2d lf.c] := by
  have hfm := forward_fresh_middle enc m x h0
  rw [hmp, henc] at hfm
  dsimp only [Option.bind] at hfm
  unfold initMiddle at hfm
  cases hidx : get_sfs_idxs feats m.last with
  | none => rw [hidx] at hfm; exact absurd hfm (by simp)
  | some idxs =>
    rw [hidx, hlf] at hfm
    dsimp only at hfm
    have : mp = ⟨feats, idxs, middle_conv_layers lf.c⟩ := by
      injection hfm with hfm'
    rw [this]
    rfl

theorem middle_conv_structure_witness :
    (⟨feats2, [1], middle_conv_layers 8⟩ : MiddlePart).middle_conv =
      [Layer.conv2d 8 16 3 1 1, Layer.relu, Layer.batchNorm2d 16,
       Layer.conv2d 16 8 3 1 1, Layer.relu, Layer.batchNorm2d 8] :=
  middle_conv_structure encHalve duInit ⟨1, 3, 8, 8⟩ feats2 ⟨1, 8, 4, 4⟩
    ⟨feats2, [1], middle_conv_layers 8⟩ rfl rfl (by decide) (by decide)

/-- `ConvTranspose2d(c, c, 2, 2)` keeps the channel count and doubles
the spatial size of a channel-matching non-empty input. -/
theorem convT_same_c (c : Nat) (t : TShape) (hc : t.c = c) (hh : 1 ≤ t.h) (hw : 1 ≤ t.w) :
    convTranspose2d_shape c c 2 2 t = some ⟨t.n, c, 2 * t.h, 2 * t.w⟩ := by
  unfold convTranspose2d_shape
  rw [if_pos ⟨hc, hh, hw⟩]
  simp only [Option.some.injEq, TShape.mk.injEq, true_and]
  omega

/-- Claim C5: when decoder construction succeeds, the extra
resolution-doubling transposed-convolution block exists if and only if
the original input's spatial size differs from the first (shallowest)
recorded activation's spatial size; when it exists it keeps its input
channel count while doubling spatial size, and the evaluation step
`applyExtra` applies it exactly when it exists (and is the identity
otherwise). -/
theorem extra_block_iff_size_mismatch (imsize : Nat × Nat) (szs : List TShape)
    (idxs : List Nat) (x : TShape) (up : UpPart) (x_end : TShape)
    (hb : build_up_part imsize szs idxs x = some (up, x_end)) :
    (∀ fs, szs.get? 0 = some fs → (up.extra_block.isSome ↔ imsize ≠ (fs.h, fs.w))) ∧
    (∀ c t, up.extra_block = some c → t.c = c → 1 ≤ t.h → 1 ≤ t.w →
        applyExtra up.extra_block t = some ⟨t.n, c, 2 * t.h, 2 * t.w⟩) ∧
    (up.extra_block = none → ∀ t, applyExtra up.extra_block t = some t) := by
  unfold build_up_part at hb
  cases hbb : buildBlocks szs idxs.reverse x with
  | none => rw [hbb] at hb; exact absurd hb (by simp)
  | some bx =>
    obtain ⟨blocks, xe⟩ := bx
    rw [hbb] at hb
    dsimp only at hb
    cases h0 : szs.get? 0 with
    | none => rw [h0] at hb; exact absurd hb (by simp)
    | some firstSz =>
      rw [h0] at hb
      dsimp only at hb
      by_cases him : imsize ≠ (firstSz.h, firstSz.w)
      · rw [if_pos him] at hb
        cases hlb : blocks.getLast? with
        | none => rw [hlb] at hb; exact absurd hb (by simp)
        | some lb =>
          rw [hlb] at hb
          dsimp only at hb
          simp only [Option.some.injEq, Prod.mk.injEq] at hb
          obtain ⟨hup, hxe⟩ := hb
          subst hup
          refine ⟨?_, ?_, ?_⟩
          · intro fs hfs
            have hffs : fs = firstSz := by injection hfs with h'; exact h'.symm
            subst hffs
            simpa using him
          · intro c t hsome hc hh hw
            have hcc : c = lb.conv2_out_channels := by
              dsimp only at hsome; injection hsome with h'; exact h'.symm
            subst hcc
            dsimp only [applyExtra]
            exact convT_same_c _ t hc hh hw
          · intro hnone
            exact absurd hnone (by simp)
      · rw [if_neg him] at hb
        cases hlb : blocks.getLast? with
        | none => rw [hlb] at hb; exact absurd hb (by simp)
        | some lb =>
          rw [hlb] at hb
          dsimp only at hb
          simp only [Option.some.injEq, Prod.mk.injEq] at hb
          obtain ⟨hup, hxe⟩ := hb
          subst hup
          refine ⟨?_, ?_, ?_⟩
          · intro fs hfs
            have hffs : fs = firstSz := by injection hfs with h'; exact h'.symm
            subst hffs
            simpa using him
          · intro c t hsome
            exact absurd hsome (by simp)
          · intro _ t
            rfl

theorem extra_block_iff_size_mismatch_witness :
    ((⟨[⟨8, 6⟩], some 5, 5⟩ : UpPart).extra_block.isSome ↔ ((16, 16) : Nat × Nat) ≠ (8, 8)) :=
  (extra_block_iff_size_mismatch (16, 16) feats2 [1] ⟨1, 8, 4, 4⟩
      ⟨[⟨8, 6⟩], some 5, 5⟩ ⟨1, 5, 8, 8⟩ (by decide)).1 ⟨1, 4, 8, 8⟩ (by decide)

theorem dynamicUnet_topology_once_witness :
    (((DynamicUnet.forward encHalve duInit ⟨1, 3, 8, 8⟩).1.middle_part.isSome ∧
       (DynamicUnet.forward encHalve duInit ⟨1, 3, 8, 8⟩).1.up_part.isSome) ∧
      (DynamicUnet.forward encHalve
          (DynamicUnet.forward encHalve duInit ⟨1, 3, 8, 8⟩).1 ⟨2, 3, 8, 8⟩).1
        = (DynamicUnet.forward encHalve duInit ⟨1, 3, 8, 8⟩).1) :=
  dynamicUnet_topology_once encHalve duInit ⟨1, 3, 8, 8⟩ ⟨2, 3, 8, 8⟩ ⟨1, 3, 8, 8⟩
    rfl rfl (by decide)
